import Mathlib

/-!
Verification of the Netpbm image library (Go sources under src/) against its
natural-language specification.  The Go code is shallowly embedded: byte
streams are lists of naturals (one per byte), grids are lists of rows, and
imperative loops become folds or index-wise maps.  Go `uint8` values are
naturals with an explicit `< 256` invariant where it matters, Go `int` values
are integers where sign matters and naturals where the source guarantees
non-negativity.
-/

namespace Netpbm

/-! ### P4 bit packing (src/2-PGM/pgm.go `Save`, binary branch, and
src/pbm.go `ReadPBM`, P4 branch) -/

/-- One step of the P4 bit-packing loop in `Save` (src/2-PGM/pgm.go, lines
365-382): given the byte buffer and one indexed pixel `(x, pixel)`, a set
pixel ORs `1 <<< (7 - x % 8)` into byte `x / 8`; a clear pixel leaves the
buffer unchanged. -/
def packStep (bytes : List Nat) (xp : Nat × Bool) : List Nat :=
  if xp.2 then
    bytes.set (xp.1 / 8) ((bytes.getD (xp.1 / 8) 0) ||| (1 <<< (7 - xp.1 % 8)))
  else bytes

/-- P4 row encoding from `Save` (src/2-PGM/pgm.go): allocate `(width+7)/8`
zero bytes, then run the packing loop over the pixels of the row together
with their indices (`for x, pixel := range row`). -/
def packRow (width : Nat) (row : List Bool) : List Nat :=
  row.enum.foldl packStep (List.replicate ((width + 7) / 8) 0)

/-- P4 per-pixel bit extraction from `ReadPBM` (src/pbm.go, lines 323-331):
the pixel at column `x` is bit `7 - (x % 8)` of byte `x / 8`. -/
def bitAt (bytes : List Nat) (x : Nat) : Nat :=
  ((bytes.getD (x / 8) 0) >>> (7 - x % 8)) &&& 1

/-- P4 row decoding from `ReadPBM` (src/pbm.go, P4 branch): for each column
`x < width`, the pixel is true exactly when the extracted bit is nonzero. -/
def unpackRow (bytes : List Nat) (width : Nat) : List Bool :=
  (List.range width).map (fun x => bitAt bytes x != 0)

/-- Helper (specification side): the OR of the bit contributions that the
packing loop makes to byte `i`. -/
def orBits (l : List (Nat × Bool)) (i : Nat) : Nat :=
  match l with
  | [] => 0
  | xp :: l => (if xp.2 = true ∧ xp.1 / 8 = i then 1 <<< (7 - xp.1 % 8) else 0) ||| orBits l i

theorem length_packStep (bytes : List Nat) (xp : Nat × Bool) :
    (packStep bytes xp).length = bytes.length := by
  unfold packStep; split <;> simp

theorem getD_packStep (bytes : List Nat) (xp : Nat × Bool) (i : Nat)
    (h : xp.1 / 8 < bytes.length) :
    (packStep bytes xp).getD i 0 =
      (bytes.getD i 0) ||| (if xp.2 = true ∧ xp.1 / 8 = i then 1 <<< (7 - xp.1 % 8) else 0) := by
  unfold packStep
  by_cases hp : xp.2 = true
  · simp only [hp, if_true, true_and]
    by_cases hi : xp.1 / 8 = i
    · subst hi
      simp [List.getD_eq_getElem?_getD, List.getElem?_set_self, h]
    · simp [List.getD_eq_getElem?_getD, List.getElem?_set_ne hi, hi]
  · simp [hp]

theorem getD_foldl_packStep (row : List Bool) :
    ∀ (n : Nat) (bytes : List Nat) (i : Nat),
    (∀ k, k < row.length → (n + k) / 8 < bytes.length) →
    ((List.enumFrom n row).foldl packStep bytes).getD i 0 =
      bytes.getD i 0 ||| orBits (List.enumFrom n row) i := by
  induction row with
  | nil => intro n bytes i _; simp [orBits]
  | cons b row ih =>
    intro n bytes i hb
    have hlen : (n, b).1 / 8 < bytes.length := by
      have := hb 0 (by simp)
      simpa using this
    have hrest : ∀ k, k < row.length → (n + 1 + k) / 8 < (packStep bytes (n, b)).length := by
      intro k hk
      rw [length_packStep]
      have := hb (k + 1) (by simp; omega)
      omega
    calc ((List.enumFrom n (b :: row)).foldl packStep bytes).getD i 0
        = ((List.enumFrom (n + 1) row).foldl packStep (packStep bytes (n, b))).getD i 0 := by
          simp [List.enumFrom]
      _ = (packStep bytes (n, b)).getD i 0 ||| orBits (List.enumFrom (n + 1) row) i :=
          ih (n + 1) (packStep bytes (n, b)) i hrest
      _ = (bytes.getD i 0 |||
            (if b = true ∧ n / 8 = i then 1 <<< (7 - n % 8) else 0)) |||
            orBits (List.enumFrom (n + 1) row) i := by
          rw [getD_packStep bytes (n, b) i hlen]
      _ = bytes.getD i 0 ||| orBits (List.enumFrom n (b :: row)) i := by
          simp [orBits, List.enumFrom, Nat.or_assoc]

theorem packRow_getD (width : Nat) (row : List Bool) (hw : row.length = width) (i : Nat) :
    (packRow width row).getD i 0 = orBits row.enum i := by
  unfold packRow
  rw [List.enum]
  rw [getD_foldl_packStep row 0 _ i]
  · simp
  · intro k hk
    simp only [List.length_replicate]
    omega

theorem testBit_orBits (l : List (Nat × Bool)) (i k : Nat) :
    Nat.testBit (orBits l i) k = true ↔
      ∃ xp ∈ l, xp.2 = true ∧ xp.1 / 8 = i ∧ 7 - xp.1 % 8 = k := by
  induction l with
  | nil => simp [orBits]
  | cons xp l ih =>
    simp only [orBits, Nat.testBit_or, Bool.or_eq_true, ih, List.mem_cons]
    constructor
    · rintro (h | h)
      · by_cases hc : xp.2 = true ∧ xp.1 / 8 = i
        · refine ⟨xp, Or.inl rfl, hc.1, hc.2, ?_⟩
          simp only [hc, if_true, and_self] at h
          rw [Nat.shiftLeft_eq, one_mul, Nat.testBit_two_pow] at h
          exact of_decide_eq_true h
        · simp [hc] at h
      · obtain ⟨yp, hy, hrest⟩ := h
        exact ⟨yp, Or.inr hy, hrest⟩
    · rintro ⟨yp, (rfl | hy), h1, h2, h3⟩
      · left
        simp only [h1, h2, and_self, if_true]
        rw [Nat.shiftLeft_eq, one_mul, Nat.testBit_two_pow]
        simp [h3]
      · exact Or.inr ⟨yp, hy, h1, h2, h3⟩

theorem testBit_packRow (width : Nat) (row : List Bool) (hw : row.length = width)
    (x : Nat) (hx : x < width) :
    Nat.testBit ((packRow width row).getD (x / 8) 0) (7 - x % 8) =
      row.getD x false := by
  rw [packRow_getD width row hw]
  have hx' : x < row.length := by omega
  have hgetD : row.getD x false = row[x] := by
    rw [List.getD_eq_getElem?_getD, List.getElem?_eq_getElem hx']
    rfl
  rw [hgetD]
  by_cases hr : row[x] = true
  · rw [hr]
    rw [(testBit_orBits row.enum (x / 8) (7 - x % 8)).mpr ?_]
    refine ⟨(x, row[x]), ?_, hr, rfl, rfl⟩
    rw [List.mem_enum_iff_getElem?]
    exact List.getElem?_eq_getElem hx'
  · have hr' : row[x] = false := by
      cases h : row[x]
      · rfl
      · exact absurd h hr
    rw [hr']
    rw [← Bool.not_eq_true]
    intro hbit
    obtain ⟨xp, hmem, hp, hdiv, hmod⟩ := (testBit_orBits row.enum (x / 8) (7 - x % 8)).mp hbit
    rw [List.mem_enum_iff_getElem?] at hmem
    have hj' : xp.1 < row.length := by
      by_contra hge
      rw [List.getElem?_eq_none (by omega)] at hmem
      exact Option.noConfusion hmem
    rw [List.getElem?_eq_getElem hj'] at hmem
    have hxp2 : xp.2 = row[xp.1] := (Option.some.injEq _ _).mp hmem.symm
    have hmod8 : xp.1 % 8 = x % 8 := by
      have h1 : xp.1 % 8 < 8 := Nat.mod_lt _ (by omega)
      have h2 : x % 8 < 8 := Nat.mod_lt _ (by omega)
      omega
    have hxj : xp.1 = x := by omega
    have h1 : row[xp.1]? = row[x]? := by rw [hxj]
    rw [List.getElem?_eq_getElem hj', List.getElem?_eq_getElem hx'] at h1
    have h2 : row[xp.1] = row[x] := (Option.some.injEq _ _).mp h1
    rw [hxp2, h2] at hp
    rw [hp] at hr'
    exact Bool.noConfusion hr'

theorem length_foldl_packStep (l : List (Nat × Bool)) :
    ∀ bytes : List Nat, (l.foldl packStep bytes).length = bytes.length := by
  induction l with
  | nil => intro bytes; rfl
  | cons xp l ih =>
    intro bytes
    rw [List.foldl_cons, ih, length_packStep]

theorem length_packRow (width : Nat) (row : List Bool) :
    (packRow width row).length = (width + 7) / 8 := by
  unfold packRow
  rw [length_foldl_packStep]
  simp

theorem length_unpackRow (bytes : List Nat) (width : Nat) :
    (unpackRow bytes width).length = width := by
  simp [unpackRow]

theorem bitAt_eq_testBit (bytes : List Nat) (x : Nat) :
    (bitAt bytes x != 0) = Nat.testBit (bytes.getD (x / 8) 0) (7 - x % 8) := by
  unfold bitAt
  rw [Nat.testBit]
  rw [Nat.and_comm]

theorem unpackRow_packRow (width : Nat) (row : List Bool) (hw : row.length = width) :
    unpackRow (packRow width row) width = row := by
  apply List.ext_getElem
  · rw [length_unpackRow, hw]
  · intro i h1 h2
    have hi : i < width := by rwa [length_unpackRow] at h1
    unfold unpackRow
    rw [List.getElem_map, List.getElem_range]
    rw [bitAt_eq_testBit]
    rw [testBit_packRow width row hw i hi]
    rw [List.getD_eq_getElem?_getD, List.getElem?_eq_getElem h2]
    simp

theorem testBit_packRow_ge (width : Nat) (row : List Bool) (hw : row.length = width)
    (x : Nat) (hx : width ≤ x) :
    Nat.testBit ((packRow width row).getD (x / 8) 0) (7 - x % 8) = false := by
  rw [packRow_getD width row hw]
  rw [← Bool.not_eq_true]
  intro hbit
  obtain ⟨xp, hmem, hp, hdiv, hmod⟩ := (testBit_orBits row.enum (x / 8) (7 - x % 8)).mp hbit
  rw [List.mem_enum_iff_getElem?] at hmem
  have hj' : xp.1 < row.length := by
    by_contra hge
    rw [List.getElem?_eq_none (by omega)] at hmem
    exact Option.noConfusion hmem
  have h1 : xp.1 % 8 < 8 := Nat.mod_lt _ (by omega)
  have h2 : x % 8 < 8 := Nat.mod_lt _ (by omega)
  omega

/-- Claim C3: for binary PBM (P4), every row occupies `ceil(width/8)` bytes on the
wire, the pixel at column `x` is held in bit `7 - (x mod 8)` of byte `x / 8`
(MSB first), trailing bits past `width` are zero-filled on encode and ignored
on decode; concretely, for width 10 the row `[1,0,1,0,1,0,1,0,1,1]` encodes to
the bytes `[0b10101010, 0b11000000]` and decoding those bytes with width 10
reproduces the same boolean row. -/
theorem claim_C3_p4_bit_packing (width : Nat) (row : List Bool) (hw : row.length = width) :
    (packRow width row).length = (width + 7) / 8 ∧
    unpackRow (packRow width row) width = row ∧
    (∀ x, x < width → (bitAt (packRow width row) x != 0) = row.getD x false) ∧
    (∀ x, width ≤ x → bitAt (packRow width row) x = 0) ∧
    (∀ bytes1 bytes2 : List Nat, (∀ x, x < width → bitAt bytes1 x = bitAt bytes2 x) →
      unpackRow bytes1 width = unpackRow bytes2 width) ∧
    packRow 10 [true, false, true, false, true, false, true, false, true, true] = [170, 192] ∧
    unpackRow [170, 192] 10 =
      [true, false, true, false, true, false, true, false, true, true] := by
  refine ⟨length_packRow width row, unpackRow_packRow width row hw, ?_, ?_, ?_, by decide, by decide⟩
  · intro x hx
    rw [bitAt_eq_testBit, testBit_packRow width row hw x hx]
  · intro x hx
    have htb := testBit_packRow_ge width row hw x hx
    have hb := bitAt_eq_testBit (packRow width row) x
    rw [htb] at hb
    simpa [bne_iff_ne] using hb
  · intro bytes1 bytes2 hsame
    unfold unpackRow
    apply List.map_congr_left
    intro x hxmem
    rw [hsame x (List.mem_range.mp hxmem)]

theorem claim_C3_p4_bit_packing_witness :
    ([true, false, true, false, true, false, true, false, true, true] : List Bool).length = 10 ∧
    unpackRow (packRow 10 [true, false, true, false, true, false, true, false, true, true]) 10 =
      [true, false, true, false, true, false, true, false, true, true] :=
  ⟨by decide,
   (claim_C3_p4_bit_packing 10 [true, false, true, false, true, false, true, false, true, true]
     (by decide)).2.1⟩

/-! ### Byte-stream model

A stream is a list of naturals, one per byte.  These helpers model the Go
standard-library primitives the readers use: `strings.Fields`,
`strings.TrimSpace`, `bufio.Reader.ReadString`, `bufio.Reader.Read`,
`fmt.Sscanf` with integer verbs, and `strconv.Atoi`. -/

/-- Go `unicode.IsSpace` restricted to the ASCII bytes that occur in Netpbm
headers: space, tab, newline, carriage return, vertical tab, form feed. -/
def isSpaceByte (b : Nat) : Bool :=
  b = 32 || b = 9 || b = 10 || b = 13 || b = 11 || b = 12

/-- ASCII decimal digit test. -/
def isDigitByte (b : Nat) : Bool := 48 ≤ b && b ≤ 57

/-- Bytes of a string literal (used to write concrete streams). -/
def bytesOf (s : String) : List Nat := s.toList.map Char.toNat

/-- Accumulator version of `strings.Fields`. -/
def fieldsAux : List Nat → List Nat → List (List Nat)
  | [], acc => if acc.isEmpty then [] else [acc.reverse]
  | b :: rest, acc =>
    if isSpaceByte b then
      if acc.isEmpty then fieldsAux rest [] else acc.reverse :: fieldsAux rest []
    else fieldsAux rest (b :: acc)

/-- Go `strings.Fields`: split a byte string around runs of whitespace. -/
def fields (s : List Nat) : List (List Nat) := fieldsAux s []

/-- Go `strings.TrimSpace` on an ASCII byte string. -/
def trimSpace (s : List Nat) : List Nat :=
  ((s.dropWhile isSpaceByte).reverse.dropWhile isSpaceByte).reverse

/-- Go `bufio.Reader.ReadString` with delimiter `\n`: the returned line
includes the newline; `none` models the `io.EOF` error returned when the
stream ends before a newline (every call site treats that as a failure). -/
def readLine : List Nat → Option (List Nat × List Nat)
  | [] => none
  | b :: rest =>
    if b = 10 then some ([10], rest)
    else
      match readLine rest with
      | none => none
      | some (line, rem) => some (b :: line, rem)

/-- Go `bufio.Reader.Read` into a buffer of `n` bytes followed by the
`n < expected` short-read check the readers perform: `none` when fewer than
`n` bytes remain. -/
def readBytesN (n : Nat) (s : List Nat) : Option (List Nat × List Nat) :=
  if n ≤ s.length then some (s.take n, s.drop n) else none

/-- Numeric value of a list of ASCII digit bytes. -/
def digitsVal (ds : List Nat) : Nat := ds.foldl (fun a d => a * 10 + (d - 48)) 0

/-- One `%d` conversion of `fmt.Sscanf`: skip leading whitespace, accept an
optional sign, then require at least one digit; returns the parsed integer
and the unconsumed remainder. -/
def scanInt (s : List Nat) : Option (Int × List Nat) :=
  let s1 := s.dropWhile isSpaceByte
  let signAndRest : Bool × List Nat :=
    match s1 with
    | 45 :: r => (true, r)
    | 43 :: r => (false, r)
    | _ => (false, s1)
  let ds := signAndRest.2.takeWhile isDigitByte
  let rem := signAndRest.2.dropWhile isDigitByte
  if ds.isEmpty then none
  else some (if signAndRest.1 then -(digitsVal ds : Int) else (digitsVal ds : Int), rem)

/-- Go `fmt.Sscanf(s, "%d %d", ...)`: two integer conversions; trailing
input is ignored (`Sscanf` stops after the last verb). -/
def sscanf2 (s : List Nat) : Option (Int × Int) :=
  match scanInt s with
  | none => none
  | some (a, r) =>
    match scanInt r with
    | none => none
    | some (b, _) => some (a, b)

/-- Go `fmt.Sscanf(s, "%d", ...)`: one integer conversion. -/
def sscanf1 (s : List Nat) : Option Int :=
  match scanInt s with
  | none => none
  | some (a, _) => some a

/-- Go `strconv.Atoi`: optional sign then digits, the whole string must be
consumed; `none` models the error return. -/
def atoi (s : List Nat) : Option Int :=
  let signAndRest : Bool × List Nat :=
    match s with
    | 45 :: r => (true, r)
    | 43 :: r => (false, r)
    | _ => (false, s)
  if signAndRest.2.isEmpty then none
  else if signAndRest.2.all isDigitByte then
    some (if signAndRest.1 then -(digitsVal signAndRest.2 : Int) else (digitsVal signAndRest.2 : Int))
  else none

/-- Result of `value, _ := strconv.Atoi(text)` with the error ignored: the Go
idiom leaves the zero value in place on failure. -/
def atoiD (s : List Nat) : Int := (atoi s).getD 0

/-- Go `uint8(v)` conversion of an integer: truncation modulo 256. -/
def u8 (i : Int) : Nat := (i % 256).toNat

/-- Outcome of running an embedded Go function: a normal return, an error
return carrying a message tag, or a runtime panic (index out of range,
division by zero, `make` with negative size). -/
inductive GoRes (α : Type) where
  | ok (val : α)
  | err (msg : String)
  | panicked
deriving DecidableEq, Repr

/-! ### PBM codec (src/pbm.go, package Netpbm copy: `ReadPBM` lines 255-337,
`Save` lines 355-393) -/

/-- PBM image struct from src/pbm.go: pixel rows, stored dimensions and the
magic-number token (kept as bytes). -/
structure PBM where
  data : List (List Bool)
  width : Int
  height : Int
  magicNumber : List Nat
deriving DecidableEq, Repr

/-- P1 payload loop of `ReadPBM` (src/pbm.go lines 291-305): one line per
row; the fields of the line are assigned left to right into a row
preallocated with `false`, and a field index reaching `width` is an error. -/
def readP1Rows : Nat → Nat → List Nat → GoRes (List (List Bool))
  | 0, _, _ => GoRes.ok []
  | n + 1, w, s =>
    match readLine s with
    | none => GoRes.err "error reading data"
    | some (line, s1) =>
      let fs := fields line
      if w < fs.length then GoRes.err "index out of range"
      else
        match readP1Rows n w s1 with
        | GoRes.ok rows =>
          GoRes.ok (((List.range w).map (fun x => fs.getD x [] == bytesOf "1")) :: rows)
        | GoRes.err m => GoRes.err m
        | GoRes.panicked => GoRes.panicked

/-- P4 payload loop of `ReadPBM` (src/pbm.go lines 307-334): each row reads
`(width+7)/8` bytes and unpacks them MSB first. -/
def readP4Rows : Nat → Nat → List Nat → GoRes (List (List Bool))
  | 0, _, _ => GoRes.ok []
  | n + 1, w, s =>
    match readBytesN ((w + 7) / 8) s with
    | none => GoRes.err "unexpected end of file"
    | some (bytes, s1) =>
      match readP4Rows n w s1 with
      | GoRes.ok rows => GoRes.ok (unpackRow bytes w :: rows)
      | GoRes.err m => GoRes.err m
      | GoRes.panicked => GoRes.panicked

/-- Embedded `ReadPBM` (src/pbm.go lines 255-337): read the magic-number
line, the dimension line via `Sscanf "%d %d"`, allocate the grid (`make`
panics on a negative size), then read the payload per magic number. -/
def decodePBM (s : List Nat) : GoRes PBM :=
  match readLine s with
  | none => GoRes.err "error reading magic number"
  | some (line1, s1) =>
    let magic := trimSpace line1
    if magic = bytesOf "P1" ∨ magic = bytesOf "P4" then
      match readLine s1 with
      | none => GoRes.err "error reading dimensions"
      | some (line2, s2) =>
        match sscanf2 (trimSpace line2) with
        | none => GoRes.err "invalid dimensions"
        | some (w, h) =>
          if h < 0 then GoRes.panicked
          else if 0 < h ∧ w < 0 then GoRes.panicked
          else if magic = bytesOf "P1" then
            match readP1Rows h.toNat w.toNat s2 with
            | GoRes.ok rows => GoRes.ok ⟨rows, w, h, magic⟩
            | GoRes.err m => GoRes.err m
            | GoRes.panicked => GoRes.panicked
          else
            match readP4Rows h.toNat w.toNat s2 with
            | GoRes.ok rows => GoRes.ok ⟨rows, w, h, magic⟩
            | GoRes.err m => GoRes.err m
            | GoRes.panicked => GoRes.panicked
    else GoRes.err "invalid magic number"

/-- Decimal bytes of an integer, as printed by the `%d` verb. -/
def intBytes (i : Int) : List Nat := bytesOf (toString i)

/-- Embedded `Save` (src/pbm.go lines 355-393): magic-number line, dimension
line, then one line per row consisting of the characters `1`/`0` for the
pixels, with no separators and no binary branch for P4. -/
def savePBM (pbm : PBM) : List Nat :=
  pbm.magicNumber ++ [10] ++ intBytes pbm.width ++ [32] ++ intBytes pbm.height ++ [10] ++
    (pbm.data.map (fun row => row.map (fun p => if p then 49 else 48) ++ [10])).flatten

/-! ### PGM reader (src/2-PGM/pgm.go `ReadPGM`, lines 19-57): a
`bufio.Scanner` split on words; every `strconv.Atoi` error is discarded. -/

/-- PGM image struct from src/2-PGM/pgm.go. -/
structure PGM where
  data : List (List Nat)
  width : Int
  height : Int
  magicNumber : List Nat
  max : Int
deriving DecidableEq, Repr

/-- Embedded `ReadPGM` (src/2-PGM/pgm.go lines 19-57): the word scanner
yields the whitespace-separated tokens of the stream; token 0 is the magic
number, tokens 1-3 are width, height and max (`Atoi` errors ignored, reading
past the end yields the empty token, hence 0), and the remaining tokens fill
the `height × width` grid as `uint8` values.  No validation of the max value
is performed.  `none` models the `make` panic on a negative dimension. -/
def decodePGMWords (s : List Nat) : Option PGM :=
  let ts := fields s
  let magic := ts.getD 0 []
  let w := atoiD (ts.getD 1 [])
  let h := atoiD (ts.getD 2 [])
  let mx := atoiD (ts.getD 3 [])
  if h < 0 then none
  else if 0 < h ∧ w < 0 then none
  else
    some ⟨(List.range h.toNat).map (fun i =>
            (List.range w.toNat).map (fun j =>
              u8 (atoiD (ts.getD (4 + i * w.toNat + j) [])))),
          w, h, magic, mx⟩

/-! ### Claim C1: round trip -/

/-- Claim C1 (code bug in src/pbm.go `Save`): the round trip
`decode(encode(grid)) = grid` fails for PBM.  `Save` writes each row as bare
`1`/`0` characters with no separators and has no binary branch for P4, so its
own `ReadPBM` parses a whole row line as a single P1 token (which compares
unequal to `"1"`), and under P4 it reads the ASCII digit bytes as packed
bits.  On the valid one-row grid `[[true, false]]` the round trip returns
`[[false, false]]` for both magic numbers instead of the original pixels. -/
theorem claim_C1_roundtrip_broken :
    decodePBM (savePBM ⟨[[true, false]], 2, 1, bytesOf "P1"⟩) =
      GoRes.ok ⟨[[false, false]], 2, 1, bytesOf "P1"⟩ ∧
    decodePBM (savePBM ⟨[[true, false]], 2, 1, bytesOf "P4"⟩) =
      GoRes.ok ⟨[[false, false]], 2, 1, bytesOf "P4"⟩ ∧
    ([[false, false]] : List (List Bool)) ≠ [[true, false]] :=
  ⟨by decide, by decide, by decide⟩

/-! ### Claim C5: comment lines between header tokens -/

theorem readLine_append (l r : List Nat) (hl : 10 ∉ l) :
    readLine (l ++ 10 :: r) = some (l ++ [10], r) := by
  induction l with
  | nil => rfl
  | cons b t ih =>
    have hb : b ≠ 10 := by
      intro h
      exact hl (h ▸ List.mem_cons_self b t)
    have ht : 10 ∉ t := fun h => hl (List.mem_cons_of_mem b h)
    simp only [List.cons_append, readLine, if_neg hb]
    rw [show t ++ 10 :: r = t.append (10 :: r) from rfl] at ih
    rw [ih ht]

theorem scanInt_cons35 (t : List Nat) : scanInt (35 :: t) = none := by
  simp [scanInt, isSpaceByte, isDigitByte, List.takeWhile]

theorem sscanf2_head35 (l : List Nat) (h : l.head? = some 35) : sscanf2 l = none := by
  match l, h with
  | 35 :: t, _ => rw [sscanf2, scanInt_cons35]

/-- Claim C5 counterexample: the stream `P1 / 1 1 / 1` decodes to a one-pixel
grid, but inserting the comment line `#c` between the magic number and the
dimension line makes `ReadPBM` (src/pbm.go) fail with the invalid-dimensions
error instead of skipping the comment. -/
theorem claim_C5_counterexample :
    decodePBM (bytesOf "P1\n1 1\n1\n") = GoRes.ok ⟨[[true]], 1, 1, bytesOf "P1"⟩ ∧
    decodePBM (bytesOf "P1\n#c\n1 1\n1\n") = GoRes.err "invalid dimensions" :=
  ⟨by decide, by decide⟩

/-- Claim C5 (corrected): the active readers perform no comment skipping.
For `ReadPBM` in src/pbm.go, any line whose trimmed content begins with `#`
placed where the dimension line is expected makes the decode fail with the
invalid-dimensions error, and placed where the magic number is expected makes
it fail with the invalid-magic-number error; the grid is never produced. -/
theorem claim_C5_comments_rejected (lineC rest : List Nat) (hnl : 10 ∉ lineC)
    (h35 : (trimSpace (lineC ++ [10])).head? = some 35) :
    decodePBM (bytesOf "P1\n" ++ (lineC ++ 10 :: rest)) = GoRes.err "invalid dimensions" ∧
    decodePBM (lineC ++ 10 :: rest) = GoRes.err "invalid magic number" := by
  have hP1 : bytesOf "P1\n" = [80, 49, 10] := by decide
  have hmagic : trimSpace (lineC ++ [10]) ≠ bytesOf "P1" := by
    intro h
    rw [h] at h35
    exact absurd h35 (by decide)
  have hmagic4 : trimSpace (lineC ++ [10]) ≠ bytesOf "P4" := by
    intro h
    rw [h] at h35
    exact absurd h35 (by decide)
  constructor
  · rw [hP1]
    show decodePBM (80 :: 49 :: 10 :: (lineC ++ 10 :: rest)) = GoRes.err "invalid dimensions"
    rw [decodePBM]
    rw [show readLine (80 :: 49 :: 10 :: (lineC ++ 10 :: rest)) =
        some ([80, 49, 10], lineC ++ 10 :: rest) from rfl]
    simp only
    rw [if_pos (by left; decide)]
    rw [readLine_append lineC rest hnl]
    simp only
    rw [sscanf2_head35 _ h35]
  · rw [decodePBM]
    rw [readLine_append lineC rest hnl]
    simp only
    rw [if_neg]
    push_neg
    exact ⟨hmagic, hmagic4⟩

theorem claim_C5_comments_rejected_witness :
    (10 ∉ bytesOf "#c") ∧
    ((trimSpace (bytesOf "#c" ++ [10])).head? = some 35) ∧
    decodePBM (bytesOf "P1\n" ++ (bytesOf "#c" ++ 10 :: bytesOf "1 1\n1\n")) =
      GoRes.err "invalid dimensions" ∧
    decodePBM (bytesOf "#c" ++ 10 :: bytesOf "1 1\n1\n") =
      GoRes.err "invalid magic number" :=
  ⟨by decide, by decide,
   (claim_C5_comments_rejected (bytesOf "#c") (bytesOf "1 1\n1\n") (by decide) (by decide)).1,
   (claim_C5_comments_rejected (bytesOf "#c") (bytesOf "1 1\n1\n") (by decide) (by decide)).2⟩

/-! ### Claim C4: PGM max value 0 -/

/-- Claim C4 counterexample: `ReadPGM` (src/2-PGM/pgm.go) decodes the stream
`P2 1 1 0 0`, whose header declares a max sample value of 0, into a grid with
`max = 0` and returns it with a nil error; no `InvalidMaxValue` failure
exists anywhere in the reader. -/
theorem claim_C4_counterexample :
    decodePGMWords (bytesOf "P2 1 1 0 0") = some ⟨[[0]], 1, 1, bytesOf "P2", 0⟩ := by
  decide

/-- Claim C4 (corrected): `ReadPGM` performs no validation of the max value.
For every input stream whose fourth header token parses to 0 (in particular
one declaring `max = 0`) and whose dimensions are non-negative, decode
succeeds and returns a grid with `max = 0`, holding the declared number of
rows and columns. -/
theorem claim_C4_max_zero_accepted (s : List Nat)
    (hmax : atoiD ((fields s).getD 3 []) = 0)
    (hw : 0 ≤ atoiD ((fields s).getD 1 []))
    (hh : 0 ≤ atoiD ((fields s).getD 2 [])) :
    ∃ g : PGM, decodePGMWords s = some g ∧ g.max = 0 ∧
      g.data.length = (atoiD ((fields s).getD 2 [])).toNat ∧
      ∀ row ∈ g.data, row.length = (atoiD ((fields s).getD 1 [])).toNat := by
  rw [decodePGMWords]
  rw [if_neg (by omega), if_neg (by omega)]
  refine ⟨_, rfl, hmax, by simp, ?_⟩
  intro row hrow
  simp only [List.mem_map] at hrow
  obtain ⟨i, _, hrow⟩ := hrow
  rw [← hrow]
  simp

theorem claim_C4_max_zero_accepted_witness :
    ∃ g : PGM, decodePGMWords (bytesOf "P2 1 1 0 0") = some g ∧ g.max = 0 ∧
      g.data.length = (atoiD ((fields (bytesOf "P2 1 1 0 0")).getD 2 [])).toNat ∧
      ∀ row ∈ g.data, row.length = (atoiD ((fields (bytesOf "P2 1 1 0 0")).getD 1 [])).toNat :=
  claim_C4_max_zero_accepted (bytesOf "P2 1 1 0 0") (by decide) (by decide) (by decide)

/-! ### PPM data model (src/ppm.go) and the ToPBM conversions (claim C2) -/

/-- Color pixel from src/ppm.go: three `uint8` channels, embedded as naturals
with the `< 256` representation invariant carried by hypotheses. -/
structure Pixel where
  R : Nat
  G : Nat
  B : Nat
deriving DecidableEq, Repr

instance : Inhabited Pixel := ⟨⟨0, 0, 0⟩⟩

/-- PPM image struct from src/ppm.go. -/
structure PPM where
  data : List (List Pixel)
  width : Int
  height : Int
  magicNumber : List Nat
  max : Int
deriving DecidableEq, Repr

/-- Well-formed grid: the stored dimensions are non-negative and describe the
data exactly (the invariant the spec requires after any successful decode). -/
def PPM.valid (g : PPM) : Prop :=
  0 ≤ g.width ∧ 0 ≤ g.height ∧ g.data.length = g.height.toNat ∧
    ∀ row ∈ g.data, row.length = g.width.toNat

instance (g : PPM) : Decidable g.valid := by
  unfold PPM.valid
  infer_instance

/-- Output struct of `ToPBM` in src/2-PGM/pgm.go: a local PBM variant holding
`uint8` values (1 = white, 0 = black). -/
structure PBMu8 where
  data : List (List Nat)
  width : Int
  height : Int
deriving DecidableEq, Repr

/-- Embedded `ToPBM` from src/2-PGM/pgm.go (lines 166-180): threshold is
`uint8(max / 2)` (Go `int` division truncates toward zero, hence `Int.tdiv`)
and a pixel becomes white (1) exactly when its value is strictly greater than
the threshold. -/
def toPBMfromPGM (g : PGM) : PBMu8 :=
  let threshold := u8 (Int.tdiv g.max 2)
  ⟨g.data.map (fun row => row.map (fun v => if threshold < v then 1 else 0)),
   g.width, g.height⟩

/-- Embedded `ToPBM` from src/ppm.go (lines 916-940): threshold is
`uint8(max / 2)`; the mean of the three channels is computed in `uint16`
(exact for valid `uint8` channels) and the pixel becomes true exactly when
the mean is strictly less than the threshold. -/
def toPBMfromPPM (g : PPM) : PBM :=
  let threshold := u8 (Int.tdiv g.max 2)
  ⟨g.data.map (fun row => row.map (fun px => (px.R + px.G + px.B) / 3 < threshold)),
   g.width, g.height, bytesOf "P1"⟩

theorem getD_getD_map {α β : Type} (f : α → β) (l : List (List α)) (y x : Nat)
    (db : β) (da : α) (hy : y < l.length) (hx : x < (l.getD y []).length) :
    ((l.map (fun r => r.map f)).getD y []).getD x db = f ((l.getD y []).getD x da) := by
  have h1 : (l.map (fun r => r.map f)).getD y [] = (l.getD y []).map f := by
    rw [List.getD_eq_getElem?_getD, List.getElem?_map, List.getElem?_eq_getElem hy,
      List.getD_eq_getElem?_getD, List.getElem?_eq_getElem hy]
    rfl
  rw [h1]
  generalize l.getD y [] = row at hx ⊢
  rw [List.getD_eq_getElem?_getD, List.getElem?_map, List.getElem?_eq_getElem hx,
    List.getD_eq_getElem?_getD, List.getElem?_eq_getElem hx]
  rfl

theorem u8_of_small (i : Int) (h0 : 0 ≤ i) (h255 : i ≤ 255) : u8 i = i.toNat := by
  unfold u8
  rw [Int.emod_eq_of_lt h0 (by omega)]

theorem u8_half_max (m : Int) (h0 : 0 ≤ m) (h255 : m ≤ 255) :
    u8 (Int.tdiv m 2) = (Int.tdiv m 2).toNat := by
  rw [Int.tdiv_eq_ediv h0 (by omega)]
  apply u8_of_small <;> omega

/-- Claim C2 counterexample: on a 1-by-1 PPM with max 255 and the all-white
pixel (255,255,255), whose channel mean 255 is strictly greater than the
threshold 127, `ToPBM` (src/ppm.go) produces `false`, not `true`: the PPM
conversion sets a pixel when the mean is strictly LESS than the threshold. -/
theorem claim_C2_counterexample :
    (toPBMfromPPM ⟨[[⟨255, 255, 255⟩]], 1, 1, bytesOf "P6", 255⟩).data = [[false]] ∧
    ((255 + 255 + 255) / 3 : Nat) > (Int.tdiv 255 2).toNat :=
  ⟨by decide, by decide⟩

/-- Claim C2 (corrected): the two `ToPBM` conversions use opposite threshold
rules.  For PGM (src/2-PGM/pgm.go) a pixel maps to white (1) exactly when its
value is strictly greater than `max/2`, so a value equal to `max/2` maps to 0;
for PPM (src/ppm.go) a pixel maps to true exactly when the mean of its three
channels is strictly LESS than `max/2`. -/
theorem claim_C2_topbm_thresholds (pg : PGM) (pp : PPM)
    (hpg0 : 0 ≤ pg.max) (hpg255 : pg.max ≤ 255)
    (hpp0 : 0 ≤ pp.max) (hpp255 : pp.max ≤ 255) :
    (∀ y x, y < pg.data.length → x < (pg.data.getD y []).length →
      ((toPBMfromPGM pg).data.getD y []).getD x 0 =
        if (Int.tdiv pg.max 2).toNat < (pg.data.getD y []).getD x 0 then 1 else 0) ∧
    (∀ y x, y < pg.data.length → x < (pg.data.getD y []).length →
      (pg.data.getD y []).getD x 0 = (Int.tdiv pg.max 2).toNat →
      ((toPBMfromPGM pg).data.getD y []).getD x 0 = 0) ∧
    (∀ y x, y < pp.data.length → x < (pp.data.getD y []).length →
      (((toPBMfromPPM pp).data.getD y []).getD x false = true ↔
        (((pp.data.getD y []).getD x default).R + ((pp.data.getD y []).getD x default).G +
          ((pp.data.getD y []).getD x default).B) / 3 < (Int.tdiv pp.max 2).toNat)) := by
  have hpgm : ∀ y x, y < pg.data.length → x < (pg.data.getD y []).length →
      ((toPBMfromPGM pg).data.getD y []).getD x 0 =
        if (Int.tdiv pg.max 2).toNat < (pg.data.getD y []).getD x 0 then 1 else 0 := by
    intro y x hy hx
    show ((pg.data.map (fun r =>
        r.map (fun v => if u8 (Int.tdiv pg.max 2) < v then 1 else 0))).getD y []).getD x 0 = _
    rw [getD_getD_map (fun v => if u8 (Int.tdiv pg.max 2) < v then 1 else 0) pg.data y x 0 0 hy hx]
    rw [u8_half_max pg.max hpg0 hpg255]
  refine ⟨hpgm, ?_, ?_⟩
  · intro y x hy hx hval
    rw [hpgm y x hy hx, hval, if_neg (lt_irrefl _)]
  · intro y x hy hx
    show (((pp.data.map (fun r => r.map (fun px =>
        decide ((px.R + px.G + px.B) / 3 < u8 (Int.tdiv pp.max 2))))).getD y []).getD x false
        = true) ↔ _
    rw [getD_getD_map (fun px => decide ((px.R + px.G + px.B) / 3 < u8 (Int.tdiv pp.max 2)))
      pp.data y x false default hy hx]
    rw [u8_half_max pp.max hpp0 hpp255]
    exact decide_eq_true_iff

theorem claim_C2_topbm_thresholds_witness :
    ((toPBMfromPGM ⟨[[2, 127, 128]], 3, 1, bytesOf "P2", 254⟩).data.getD 0 []).getD 1 0 = 0 ∧
    (((toPBMfromPPM ⟨[[⟨10, 10, 10⟩]], 1, 1, bytesOf "P6", 255⟩).data.getD 0 []).getD 0 false =
        true ↔
      ((10 + 10 + 10) / 3 : Nat) < (Int.tdiv 255 2).toNat) :=
  ⟨(claim_C2_topbm_thresholds ⟨[[2, 127, 128]], 3, 1, bytesOf "P2", 254⟩
      ⟨[[⟨10, 10, 10⟩]], 1, 1, bytesOf "P6", 255⟩
      (by decide) (by decide) (by decide) (by decide)).2.1 0 1 (by decide) (by decide) (by decide),
   (claim_C2_topbm_thresholds ⟨[[2, 127, 128]], 3, 1, bytesOf "P2", 254⟩
      ⟨[[⟨10, 10, 10⟩]], 1, 1, bytesOf "P6", 255⟩
      (by decide) (by decide) (by decide) (by decide)).2.2 0 0 (by decide) (by decide)⟩

/-! ### Rotate90CW (src/ppm.go lines 875-889, src/2-PGM/pgm.go lines 144-163;
claim C6) -/

/-- Embedded `Rotate90CW` from src/ppm.go: allocate a grid of `width` rows of
`height` pixels, write `rotated[x][height-1-y] = data[y][x]` for every cell,
then swap the stored dimensions.  Since the writes cover every target cell
exactly once, entry `(i, j)` of the rotated grid holds
`data[height-1-j][i]`. -/
def rotate90CW (g : PPM) : PPM :=
  let w := g.width.toNat
  let h := g.height.toNat
  ⟨(List.range w).map (fun i =>
      (List.range h).map (fun j => (g.data.getD (h - 1 - j) []).getD i default)),
   g.height, g.width, g.magicNumber, g.max⟩

theorem getD_range_map {α : Type} (f : Nat → α) (n i : Nat) (d : α) (h : i < n) :
    ((List.range n).map f).getD i d = f i := by
  rw [List.getD_eq_getElem?_getD, List.getElem?_map, List.getElem?_range h]
  rfl

theorem getD_of_lt {α : Type} (l : List α) (i : Nat) (d : α) (h : i < l.length) :
    l.getD i d = l[i] := by
  rw [List.getD_eq_getElem?_getD, List.getElem?_eq_getElem h]
  rfl

theorem rotate90CW_entry (g : PPM) (i j : Nat)
    (hi : i < g.width.toNat) (hj : j < g.height.toNat) :
    ((rotate90CW g).data.getD i []).getD j default =
      (g.data.getD (g.height.toNat - 1 - j) []).getD i default := by
  unfold rotate90CW
  simp only
  rw [getD_range_map _ _ _ _ hi, getD_range_map _ _ _ _ hj]

theorem rotate90CW_rotate90CW_entry (g : PPM) (i j : Nat)
    (hi : i < g.height.toNat) (hj : j < g.width.toNat) :
    ((rotate90CW (rotate90CW g)).data.getD i []).getD j default =
      (g.data.getD (g.height.toNat - 1 - i) []).getD (g.width.toNat - 1 - j) default := by
  have h1 := rotate90CW_entry (rotate90CW g) i j hi hj
  rw [h1]
  have hj' : (rotate90CW g).height.toNat - 1 - j = g.width.toNat - 1 - j := rfl
  have h2 := rotate90CW_entry g (g.width.toNat - 1 - j) i (by omega) hi
  rw [hj', h2]

theorem rotate90CW_data_length (g : PPM) :
    (rotate90CW g).data.length = g.width.toNat := by
  unfold rotate90CW
  simp

theorem rotate90CW_row_length (g : PPM) (i : Nat) (h : i < (rotate90CW g).data.length) :
    (rotate90CW g).data[i].length = g.height.toNat := by
  unfold rotate90CW
  simp

/-- Claim C6: `Rotate90CW` replaces a `width × height` grid by a
`height × width` grid with `output[x][height-1-y] = input[y][x]` and swaps
the stored dimensions; applying it four times to a valid grid returns a grid
equal to the original in dimensions and content. -/
theorem claim_C6_rotate90cw (g : PPM) (hg : g.valid) :
    (rotate90CW g).width = g.height ∧
    (rotate90CW g).height = g.width ∧
    (∀ x y, x < g.width.toNat → y < g.height.toNat →
      ((rotate90CW g).data.getD x []).getD (g.height.toNat - 1 - y) default =
        (g.data.getD y []).getD x default) ∧
    rotate90CW (rotate90CW (rotate90CW (rotate90CW g))) = g := by
  obtain ⟨hw0, hh0, hlen, hrows⟩ := hg
  refine ⟨rfl, rfl, ?_, ?_⟩
  · intro x y hx hy
    rw [rotate90CW_entry g x (g.height.toNat - 1 - y) hx (by omega)]
    congr 2
    omega
  · have dW : ∀ x : PPM, (rotate90CW x).width = x.height := fun _ => rfl
    have dH : ∀ x : PPM, (rotate90CW x).height = x.width := fun _ => rfl
    have hdata : (rotate90CW (rotate90CW (rotate90CW (rotate90CW g)))).data = g.data := by
      apply List.ext_getElem
      · rw [rotate90CW_data_length]
        simp only [dW, dH]
        omega
      · intro i h1 h2
        have hi : i < g.height.toNat := by
          rw [rotate90CW_data_length] at h1
          simp only [dW, dH] at h1
          exact h1
        apply List.ext_getElem
        · rw [rotate90CW_row_length _ _ h1]
          simp only [dW, dH]
          rw [hrows g.data[i] (List.getElem_mem h2)]
        · intro j h3 h4
          have hj : j < g.width.toNat := by
            rw [rotate90CW_row_length _ _ h1] at h3
            simp only [dW, dH] at h3
            exact h3
          have e1 := rotate90CW_rotate90CW_entry (rotate90CW (rotate90CW g)) i j
            (by simp only [dW, dH]; exact hi) (by simp only [dW, dH]; exact hj)
          simp only [dW, dH] at e1
          have e2 := rotate90CW_rotate90CW_entry g
            (g.height.toNat - 1 - i) (g.width.toNat - 1 - j) (by omega) (by omega)
          rw [e2] at e1
          rw [show g.height.toNat - 1 - (g.height.toNat - 1 - i) = i by omega,
            show g.width.toNat - 1 - (g.width.toNat - 1 - j) = j by omega] at e1
          rw [getD_of_lt _ i [] h1, getD_of_lt _ j default h3] at e1
          rw [getD_of_lt _ i [] h2, getD_of_lt _ j default h4] at e1
          exact e1
    have hfour : rotate90CW (rotate90CW (rotate90CW (rotate90CW g))) =
        ⟨(rotate90CW (rotate90CW (rotate90CW (rotate90CW g)))).data,
          g.width, g.height, g.magicNumber, g.max⟩ := rfl
    rw [hfour, hdata]

theorem claim_C6_rotate90cw_witness :
    (rotate90CW ⟨[[⟨1, 2, 3⟩, ⟨4, 5, 6⟩]], 2, 1, bytesOf "P6", 255⟩).width = 1 ∧
    rotate90CW (rotate90CW (rotate90CW (rotate90CW
      ⟨[[⟨1, 2, 3⟩, ⟨4, 5, 6⟩]], 2, 1, bytesOf "P6", 255⟩))) =
      ⟨[[⟨1, 2, 3⟩, ⟨4, 5, 6⟩]], 2, 1, bytesOf "P6", 255⟩ :=
  ⟨(claim_C6_rotate90cw ⟨[[⟨1, 2, 3⟩, ⟨4, 5, 6⟩]], 2, 1, bytesOf "P6", 255⟩
      (by decide)).1,
   (claim_C6_rotate90cw ⟨[[⟨1, 2, 3⟩, ⟨4, 5, 6⟩]], 2, 1, bytesOf "P6", 255⟩
      (by decide)).2.2.2⟩

/-! ### Drawing subsystem (claim C7) -/

/-- Point struct from src/ppm.go: an integer coordinate pair, not
bounds-checked at construction. -/
structure Point where
  X : Int
  Y : Int
deriving DecidableEq, Repr

/-- Embedded `SetPixel` from src/ppm.go (lines 943-948): the color is written
only when the point lies strictly inside the stored dimensions; an
out-of-bounds write falls through and leaves the image untouched. -/
def setPixel (g : PPM) (p : Point) (color : Pixel) : PPM :=
  if 0 ≤ p.X ∧ p.X < g.width ∧ 0 ≤ p.Y ∧ p.Y < g.height then
    { g with data := g.data.set p.Y.toNat ((g.data.getD p.Y.toNat []).set p.X.toNat color) }
  else g

/-- Go helper `abs` from src/ppm.go. -/
def absInt (x : Int) : Int := if x < 0 then -x else x

/-- Loop body of Bresenham `DrawLine` from src/ppm.go (lines 951-994),
expressed with an explicit iteration bound; the properties proved below hold
for every bound. -/
def drawLineLoop : Nat → PPM → Int → Int → Int → Int → Int → Int → Int → Int → Int →
    Pixel → PPM
  | 0, g, _, _, _, _, _, _, _, _, _, _ => g
  | fuel + 1, g, x1, y1, x2, y2, sx, sy, dx, dy, e, color =>
    let g1 := setPixel g ⟨x1, y1⟩ color
    if x1 = x2 ∧ y1 = y2 then g1
    else
      let e2 := 2 * e
      let e3 := if e2 > -dy then e - dy else e
      let x1n := if e2 > -dy then x1 + sx else x1
      let e4 := if e2 < dx then e3 + dx else e3
      let y1n := if e2 < dx then y1 + sy else y1
      drawLineLoop fuel g1 x1n y1n x2 y2 sx sy dx dy e4 color

/-- Embedded `DrawLine` from src/ppm.go: Bresenham on integers, writing every
pixel through the bounds-checked `SetPixel`.  The loop runs at most
`max(dx,dy)+1` iterations; `dx+dy+1` is a safe bound. -/
def drawLine (g : PPM) (p1 p2 : Point) (color : Pixel) : PPM :=
  let dx := absInt (p2.X - p1.X)
  let dy := absInt (p2.Y - p1.Y)
  let sx : Int := if p1.X < p2.X then 1 else -1
  let sy : Int := if p1.Y < p2.Y then 1 else -1
  drawLineLoop (dx + dy + 1).toNat g p1.X p1.Y p2.X p2.Y sx sy dx dy (dx - dy) color

/-- Unguarded pixel write `ppm.data[y][x] = value`: the body of `Set` both in
src/ppm.go (lines 786-788, called by `DrawCircle` and `DrawFilledCircle`) and
in src/3-PPM/ppm.go (lines 92-94, called by `DrawLine`); indexing outside the
actual slice lengths is a runtime panic. -/
def setUnguarded (g : PPM) (x y : Int) (color : Pixel) : GoRes PPM :=
  if 0 ≤ y ∧ y.toNat < g.data.length ∧ 0 ≤ x ∧ x.toNat < (g.data.getD y.toNat []).length then
    GoRes.ok { g with data := g.data.set y.toNat ((g.data.getD y.toNat []).set x.toNat color) }
  else GoRes.panicked

/-- Iteration of the `for i := 0; i <= steps; i++` loop of `DrawLine` in
src/3-PPM/ppm.go, run `steps+1` times. -/
def drawLine3Loop : Nat → PPM → Int → Int → Int → Int → Pixel → GoRes PPM
  | 0, g, _, _, _, _, _ => GoRes.ok g
  | n + 1, g, x, y, xInc, yInc, c =>
    match setUnguarded g x y c with
    | GoRes.ok g1 => drawLine3Loop n g1 (x + xInc) (y + yInc) xInc yInc c
    | GoRes.err m => GoRes.err m
    | GoRes.panicked => GoRes.panicked

/-- Embedded `DrawLine` from src/3-PPM/ppm.go (lines 265-306): computes
`steps = max(|dx|, |dy|)` and then `xInc *= dx / steps`, an integer division
that panics when the endpoints coincide; every write goes through the
unguarded `Set`. -/
def drawLine3PPM (g : PPM) (p1 p2 : Point) (color : Pixel) : GoRes PPM :=
  let dx0 := p2.X - p1.X
  let dy0 := p2.Y - p1.Y
  let xSign : Int := if dx0 > 0 then 1 else if dx0 < 0 then -1 else 0
  let ySign : Int := if dy0 > 0 then 1 else if dy0 < 0 then -1 else 0
  let dx := absInt dx0
  let dy := absInt dy0
  let steps := max dx dy
  if steps = 0 then GoRes.panicked
  else
    let xInc := xSign * Int.tdiv dx steps
    let yInc := ySign * Int.tdiv dy steps
    drawLine3Loop (steps.toNat + 1) g p1.X p1.Y xInc yInc color

/-- Sequencing of embedded Go statements: an error or panic aborts the rest
of the function. -/
def GoRes.bind {α β : Type} : GoRes α → (α → GoRes β) → GoRes β
  | GoRes.ok a, f => f a
  | GoRes.err m, _ => GoRes.err m
  | GoRes.panicked, _ => GoRes.panicked

/-- Loop body of `DrawCircle` from src/ppm.go (lines 1027-1052): the midpoint
circle algorithm writing its eight octant pixels through the UNGUARDED `Set`
(`ppm.Set(a, b, color)` is `ppm.data[b][a] = color` with no bounds check).
Each iteration increments `y` or decrements `x`, so the loop runs at most
`radius + 1` times; the bound passed below is safe and the proved facts do
not depend on it. -/
def drawCircleLoop : Nat → PPM → Int → Int → Int → Int → Int → Pixel → GoRes PPM
  | 0, g, _, _, _, _, _, _ => GoRes.ok g
  | fuel + 1, g, cx, cy, x, y, e, color =>
    if y ≤ x then
      (setUnguarded g (cx + x) (cy + y) color).bind (fun g1 =>
      (setUnguarded g1 (cx + y) (cy + x) color).bind (fun g2 =>
      (setUnguarded g2 (cx - y) (cy + x) color).bind (fun g3 =>
      (setUnguarded g3 (cx - x) (cy + y) color).bind (fun g4 =>
      (setUnguarded g4 (cx - x) (cy - y) color).bind (fun g5 =>
      (setUnguarded g5 (cx - y) (cy - x) color).bind (fun g6 =>
      (setUnguarded g6 (cx + y) (cy - x) color).bind (fun g7 =>
      (setUnguarded g7 (cx + x) (cy - y) color).bind (fun g8 =>
        let y1 := if e ≤ 0 then y + 1 else y
        let e1 := if e ≤ 0 then e + 2 * y1 + 1 else e
        let x1 := if 0 < e1 then x - 1 else x
        let e2 := if 0 < e1 then e1 - (2 * x1 + 1) else e1
        drawCircleLoop fuel g8 cx cy x1 y1 e2 color))))))))
    else GoRes.ok g

/-- Embedded `DrawCircle` from src/ppm.go (lines 1027-1052): starts the
midpoint loop at `x = radius`, `y = 0`, `err = 0`.  Unlike `DrawLine`, its
writes bypass `SetPixel`. -/
def drawCircle (g : PPM) (center : Point) (radius : Int) (color : Pixel) : GoRes PPM :=
  drawCircleLoop (2 * radius.toNat + 2) g center.X center.Y radius 0 0 color

/-- Claim C7 counterexample: on a valid 1-by-1 canvas, `DrawLine` from
src/3-PPM/ppm.go panics for coinciding endpoints (integer division
`dx / steps` with `steps = 0`) and panics for a line leaving the canvas
(unguarded write), instead of completing with out-of-bounds writes
dropped. -/
theorem claim_C7_counterexample :
    drawLine3PPM ⟨[[⟨0, 0, 0⟩]], 1, 1, bytesOf "P6", 255⟩ ⟨0, 0⟩ ⟨0, 0⟩ ⟨255, 0, 0⟩ =
      GoRes.panicked ∧
    drawLine3PPM ⟨[[⟨0, 0, 0⟩]], 1, 1, bytesOf "P6", 255⟩ ⟨0, 0⟩ ⟨2, 0⟩ ⟨255, 0, 0⟩ =
      GoRes.panicked :=
  ⟨by decide, by decide⟩

theorem getD_set {α : Type} (l : List α) (i j : Nat) (a : α) (d : α) :
    (l.set i a).getD j d =
      if i = j ∧ i < l.length then a else l.getD j d := by
  by_cases hij : i = j
  · subst hij
    by_cases hlen : i < l.length
    · rw [List.getD_eq_getElem?_getD, List.getElem?_set_self hlen]
      simp [hlen]
    · rw [List.getD_eq_getElem?_getD, List.set_eq_of_length_le (by omega)]
      simp only [hlen, and_false, if_false]
      rw [List.getD_eq_getElem?_getD]
  · rw [List.getD_eq_getElem?_getD, List.getElem?_set_ne hij]
    simp only [hij, false_and, if_false]
    rw [List.getD_eq_getElem?_getD]

theorem setPixel_oob (g : PPM) (p : Point) (color : Pixel)
    (h : ¬(0 ≤ p.X ∧ p.X < g.width ∧ 0 ≤ p.Y ∧ p.Y < g.height)) :
    setPixel g p color = g := by
  unfold setPixel
  rw [if_neg h]

theorem setPixel_frame (g : PPM) (p : Point) (color : Pixel) (y x : Nat)
    (hne : ¬(y = p.Y.toNat ∧ x = p.X.toNat)) :
    ((setPixel g p color).data.getD y []).getD x default =
      (g.data.getD y []).getD x default := by
  unfold setPixel
  split
  · simp only
    rw [getD_set]
    by_cases hy : p.Y.toNat = y
    · by_cases hlen : p.Y.toNat < g.data.length
      · rw [if_pos ⟨hy, hlen⟩]
        rw [← hy]
        rw [getD_set]
        have hx : ¬p.X.toNat = x := by
          intro hx
          exact hne ⟨hy.symm, hx.symm⟩
        rw [if_neg (by tauto)]
      · rw [if_neg (by tauto)]
    · rw [if_neg (by tauto)]
  · rfl

theorem setPixel_writes (g : PPM) (p : Point) (color : Pixel) (hg : g.valid)
    (hin : 0 ≤ p.X ∧ p.X < g.width ∧ 0 ≤ p.Y ∧ p.Y < g.height) :
    ((setPixel g p color).data.getD p.Y.toNat []).getD p.X.toNat default = color := by
  obtain ⟨hw0, hh0, hlen, hrows⟩ := hg
  have hylen : p.Y.toNat < g.data.length := by omega
  have hxlen : p.X.toNat < (g.data.getD p.Y.toNat []).length := by
    rw [getD_of_lt _ _ _ hylen]
    rw [hrows g.data[p.Y.toNat] (List.getElem_mem hylen)]
    omega
  unfold setPixel
  rw [if_pos hin]
  simp only
  rw [getD_set, if_pos ⟨rfl, hylen⟩, getD_set, if_pos ⟨rfl, hxlen⟩]

theorem setPixel_cases (g : PPM) (p : Point) (color : Pixel) (y x : Nat) :
    ((setPixel g p color).data.getD y []).getD x default =
        (g.data.getD y []).getD x default ∨
      ((setPixel g p color).data.getD y []).getD x default = color := by
  by_cases hne : y = p.Y.toNat ∧ x = p.X.toNat
  · unfold setPixel
    split
    · simp only
      obtain ⟨hy, hx⟩ := hne
      subst hy
      subst hx
      rw [getD_set]
      by_cases hylen : p.Y.toNat < g.data.length
      · rw [if_pos ⟨rfl, hylen⟩, getD_set]
        by_cases hxlen : p.X.toNat < (g.data.getD p.Y.toNat []).length
        · right
          rw [if_pos ⟨rfl, hxlen⟩]
        · left
          rw [if_neg (by tauto)]
      · left
        rw [if_neg (by tauto)]
    · left
      rfl
  · left
    exact setPixel_frame g p color y x hne

theorem drawLineLoop_cases (fuel : Nat) :
    ∀ (g : PPM) (x1 y1 x2 y2 sx sy dx dy e : Int) (color : Pixel) (y x : Nat),
    ((drawLineLoop fuel g x1 y1 x2 y2 sx sy dx dy e color).data.getD y []).getD x default =
        (g.data.getD y []).getD x default ∨
      ((drawLineLoop fuel g x1 y1 x2 y2 sx sy dx dy e color).data.getD y []).getD x default =
        color := by
  induction fuel with
  | zero => intro g x1 y1 x2 y2 sx sy dx dy e color y x; left; rfl
  | succ fuel ih =>
    intro g x1 y1 x2 y2 sx sy dx dy e color y x
    rw [drawLineLoop]
    split
    · exact setPixel_cases g ⟨x1, y1⟩ color y x
    · simp only
      rcases ih (setPixel g ⟨x1, y1⟩ color) _ _ x2 y2 sx sy dx dy _ color y x with h | h
      · rcases setPixel_cases g ⟨x1, y1⟩ color y x with h2 | h2
        · left; rw [h, h2]
        · right; rw [h, h2]
      · right; exact h

/-- Claim C7 (corrected): `SetPixel` in src/ppm.go never fails:
out-of-bounds writes leave the image exactly unchanged and in-bounds writes
set the addressed pixel and nothing else; `DrawLine` in src/ppm.go performs
its pixel writes exclusively through `SetPixel`, so after any number of its
Bresenham iterations every pixel either keeps its original value or holds
the drawn color.  This safety does NOT extend to the rest of the drawing
subsystem: `DrawCircle` in src/ppm.go writes through the unguarded `Set` and
panics when the circle leaves the canvas (last conjunct: radius 1 around the
origin of a valid 1-by-1 canvas), and `DrawLine` in src/3-PPM/ppm.go panics
for coinciding endpoints and for lines leaving the canvas (see the
counterexample). -/
theorem claim_C7_drawing_safety (g : PPM) (p : Point) (color : Pixel) (hg : g.valid) :
    (¬(0 ≤ p.X ∧ p.X < g.width ∧ 0 ≤ p.Y ∧ p.Y < g.height) → setPixel g p color = g) ∧
    ((0 ≤ p.X ∧ p.X < g.width ∧ 0 ≤ p.Y ∧ p.Y < g.height) →
      ((setPixel g p color).data.getD p.Y.toNat []).getD p.X.toNat default = color) ∧
    (∀ y x : Nat, ¬(y = p.Y.toNat ∧ x = p.X.toNat) →
      ((setPixel g p color).data.getD y []).getD x default =
        (g.data.getD y []).getD x default) ∧
    (∀ (p1 p2 : Point) (y x : Nat),
      (((drawLine g p1 p2 color).data.getD y []).getD x default =
          (g.data.getD y []).getD x default) ∨
        ((drawLine g p1 p2 color).data.getD y []).getD x default = color) ∧
    drawCircle ⟨[[⟨0, 0, 0⟩]], 1, 1, bytesOf "P6", 255⟩ ⟨0, 0⟩ 1 ⟨255, 0, 0⟩ =
      GoRes.panicked := by
  refine ⟨setPixel_oob g p color, fun hin => setPixel_writes g p color hg hin,
    fun y x hne => setPixel_frame g p color y x hne, ?_, by decide⟩
  intro p1 p2 y x
  unfold drawLine
  exact drawLineLoop_cases _ g _ _ _ _ _ _ _ _ _ color y x

theorem claim_C7_drawing_safety_witness :
    PPM.valid ⟨[[⟨0, 0, 0⟩]], 1, 1, bytesOf "P6", 255⟩ ∧
    (setPixel ⟨[[⟨0, 0, 0⟩]], 1, 1, bytesOf "P6", 255⟩ ⟨5, 7⟩ ⟨255, 0, 0⟩ =
      ⟨[[⟨0, 0, 0⟩]], 1, 1, bytesOf "P6", 255⟩) :=
  ⟨by decide,
   (claim_C7_drawing_safety ⟨[[⟨0, 0, 0⟩]], 1, 1, bytesOf "P6", 255⟩ ⟨5, 7⟩ ⟨255, 0, 0⟩
     (by decide)).1 (by decide)⟩

/-! ### KNearestNeighbors (claim C8) -/

/-- Embedded `KNearestNeighbors` from src/ppm.go (lines 620-622): the
function body is a lone comment, so the call leaves the image completely
unchanged. -/
def kNearestNeighborsStub (g : PPM) (newWidth newHeight : Int) : PPM := g

/-! Bit-exact model of the non-negative float64 values arising in
`KNearestNeighbors`.  A finite non-negative double is a dyadic rational
`m * 2^e` with `m < 2^53`; the pair `(m, e)` represents it exactly, and the
operations below round their exact result to 53 significant bits, to
nearest, ties to even, as IEEE-754 binary64 prescribes for normal results
(the subnormal and overflow ranges are never reached by the image sizes
involved). -/

/-- Number of binary digits of the second argument (0 for 0); the first
argument is structural fuel, and `n` halvings always suffice for `n`. -/
def bitLenAux : Nat → Nat → Nat
  | 0, _ => 0
  | fuel + 1, n => if n = 0 then 0 else bitLenAux fuel (n / 2) + 1

/-- Number of binary digits of `n`. -/
def bitLen (n : Nat) : Nat := bitLenAux n n

/-- Round the rational `a / b` (with `b > 0`) to the nearest integer, ties
to even. -/
def roundNearestEven (a b : Nat) : Nat :=
  let q := a / b
  let r := a % b
  if 2 * r < b then q
  else if b < 2 * r then q + 1
  else if q % 2 = 0 then q else q + 1

/-- Decide `2^k ≤ a / b` for naturals `a` and `b > 0` and an integer `k`. -/
def pow2LeRat (k : Int) (a b : Nat) : Bool :=
  if 0 ≤ k then b * 2 ^ k.toNat ≤ a else b ≤ a * 2 ^ (-k).toNat

/-- Round the positive rational `a / b` to 53 significant binary digits
(nearest, ties to even).  `bitLen a - bitLen b` brackets the binary
magnitude within one, the comparison picks the exact `⌊log2(a/b)⌋ = k`, and
the significand is `a/b` scaled to `[2^52, 2^53)` and rounded. -/
def roundRat53 (a b : Nat) : Nat × Int :=
  let k0 : Int := (bitLen a : Int) - (bitLen b : Int)
  let k : Int := if pow2LeRat k0 a b then k0 else k0 - 1
  let e : Int := k - 52
  let m := if 0 ≤ e then roundNearestEven a (b * 2 ^ e.toNat)
    else roundNearestEven (a * 2 ^ (-e).toNat) b
  (m, e)

/-- Go `float64(n)` for a natural `n`: exact below `2^53`, otherwise rounded
to 53 significant bits. -/
def ofNatD (n : Nat) : Nat × Int :=
  if bitLen n ≤ 53 then (n, (0 : Int))
  else (roundNearestEven n (2 ^ (bitLen n - 53)), (bitLen n : Int) - 53)

/-- Float64 division of non-negative dyadics: round the exact quotient of
the significands and add the exponents. -/
def fdivD (x y : Nat × Int) : Nat × Int :=
  let me := roundRat53 x.1 y.1
  (me.1, me.2 + x.2 - y.2)

/-- Float64 multiplication of non-negative dyadics: the exact product is
dyadic; its significand is rounded to 53 bits. -/
def fmulD (x y : Nat × Int) : Nat × Int :=
  let p := x.1 * y.1
  if bitLen p ≤ 53 then (p, x.2 + y.2)
  else (roundNearestEven p (2 ^ (bitLen p - 53)), x.2 + y.2 + ((bitLen p : Int) - 53))

/-- Go `int(f)` for a non-negative dyadic: truncation toward zero. -/
def truncD (x : Nat × Int) : Nat :=
  if 0 ≤ x.2 then x.1 * 2 ^ x.2.toNat else x.1 / 2 ^ (-x.2).toNat

/-- Source coordinate computed by `KNearestNeighbors` in src/3-PPM/ppm.go:
`int(float64(x) * (float64(srcDim) / float64(dstDim)))`, evaluated in the
bit-exact float64 model above. -/
def srcCoord3PPM (x srcDim dstDim : Nat) : Nat :=
  truncD (fmulD (ofNatD x) (fdivD (ofNatD srcDim) (ofNatD dstDim)))

/-- Embedded `KNearestNeighbors` from src/3-PPM/ppm.go (lines 568-593).
Modelled from the spec: the helpers `NewPPM`, `GetPixel` and `SetPixel`
called here are absent from src/, so per the spec a blank canvas of the new
size is created and per-pixel reads and writes access the grid at `(x, y)`
(the constructor fields the spec does not fix are kept from the source
image).  The float64 scale factors and the truncating `int(...)` conversion
are computed bit-exactly by `srcCoord3PPM`. -/
def kNearestNeighbors3PPM (g : PPM) (newWidth newHeight : Nat) : PPM :=
  ⟨(List.range newHeight).map (fun y =>
      (List.range newWidth).map (fun x =>
        (g.data.getD (srcCoord3PPM y g.height.toNat newHeight) []).getD
          (srcCoord3PPM x g.width.toNat newWidth) default)),
   (newWidth : Int), (newHeight : Int), g.magicNumber, g.max⟩

/-- Claim C8 counterexample: the `KNearestNeighbors` cited in src/ppm.go is
an empty stub; resizing a 2-by-2 image to 4-by-4 returns the image unchanged,
whose width is still 2, not the claimed 4-by-4 resampled grid. -/
theorem claim_C8_counterexample :
    kNearestNeighborsStub
        ⟨[[⟨255, 0, 0⟩, ⟨0, 255, 0⟩], [⟨0, 0, 255⟩, ⟨255, 255, 0⟩]], 2, 2, bytesOf "P6", 255⟩
        4 4 =
      ⟨[[⟨255, 0, 0⟩, ⟨0, 255, 0⟩], [⟨0, 0, 255⟩, ⟨255, 255, 0⟩]], 2, 2, bytesOf "P6", 255⟩ ∧
    (kNearestNeighborsStub
        ⟨[[⟨255, 0, 0⟩, ⟨0, 255, 0⟩], [⟨0, 0, 255⟩, ⟨255, 255, 0⟩]], 2, 2, bytesOf "P6", 255⟩
        4 4).width ≠ 4 :=
  ⟨by decide, by decide⟩

/-- Claim C8 (corrected): the `KNearestNeighbors` cited in src/ppm.go is an
empty stub and leaves the grid unchanged for every grid and target size.
The src/3-PPM implementation replaces the grid by a `newWidth × newHeight`
grid whose destination pixel `(x, y)` copies, with no interpolation, the
source pixel at `int(float64(x) * (float64(width)/float64(newWidth)))` (and
likewise for `y`), computed in IEEE float64.  That float64 coordinate does
NOT always equal the claimed `floor(x*width/newWidth)`: for width 2 and
newWidth 98, destination `x = 49` reads source column 0 while the floor
formula gives 1.  On the concrete 2-by-2 `[[A,B],[C,D]]` to 4-by-4 scenario
the result places `A`, `B`, `C`, `D` in the four 2-by-2 blocks. -/
theorem claim_C8_knn (g : PPM) (nw nh : Nat) :
    (∀ (g2 : PPM) (a b : Int), kNearestNeighborsStub g2 a b = g2) ∧
    (kNearestNeighbors3PPM g nw nh).width = (nw : Int) ∧
    (kNearestNeighbors3PPM g nw nh).height = (nh : Int) ∧
    (kNearestNeighbors3PPM g nw nh).data.length = nh ∧
    (∀ row ∈ (kNearestNeighbors3PPM g nw nh).data, row.length = nw) ∧
    (∀ y x, y < nh → x < nw →
      ((kNearestNeighbors3PPM g nw nh).data.getD y []).getD x default =
        (g.data.getD (srcCoord3PPM y g.height.toNat nh) []).getD
          (srcCoord3PPM x g.width.toNat nw) default) ∧
    (srcCoord3PPM 49 2 98 = 0 ∧ 49 * 2 / 98 = 1) ∧
    kNearestNeighbors3PPM
        ⟨[[⟨255, 0, 0⟩, ⟨0, 255, 0⟩], [⟨0, 0, 255⟩, ⟨255, 255, 0⟩]], 2, 2, bytesOf "P6", 255⟩
        4 4 =
      ⟨[[⟨255, 0, 0⟩, ⟨255, 0, 0⟩, ⟨0, 255, 0⟩, ⟨0, 255, 0⟩],
        [⟨255, 0, 0⟩, ⟨255, 0, 0⟩, ⟨0, 255, 0⟩, ⟨0, 255, 0⟩],
        [⟨0, 0, 255⟩, ⟨0, 0, 255⟩, ⟨255, 255, 0⟩, ⟨255, 255, 0⟩],
        [⟨0, 0, 255⟩, ⟨0, 0, 255⟩, ⟨255, 255, 0⟩, ⟨255, 255, 0⟩]],
       4, 4, bytesOf "P6", 255⟩ := by
  refine ⟨fun g2 a b => rfl, rfl, rfl, by simp [kNearestNeighbors3PPM], ?_, ?_, by decide,
    by decide⟩
  · intro row hrow
    simp only [kNearestNeighbors3PPM, List.mem_map] at hrow
    obtain ⟨y, _, hrow⟩ := hrow
    rw [← hrow]
    simp
  · intro y x hy hx
    unfold kNearestNeighbors3PPM
    simp only
    rw [getD_range_map _ _ _ _ hy, getD_range_map _ _ _ _ hx]

theorem claim_C8_knn_witness :
    ((kNearestNeighbors3PPM
        ⟨[[⟨255, 0, 0⟩, ⟨0, 255, 0⟩], [⟨0, 0, 255⟩, ⟨255, 255, 0⟩]], 2, 2, bytesOf "P6", 255⟩
        4 4).data.getD 1 []).getD 1 default =
      ((⟨[[⟨255, 0, 0⟩, ⟨0, 255, 0⟩], [⟨0, 0, 255⟩, ⟨255, 255, 0⟩]], 2, 2, bytesOf "P6",
          255⟩ : PPM).data.getD (srcCoord3PPM 1 2 4) []).getD (srcCoord3PPM 1 2 4) default :=
  (claim_C8_knn
    ⟨[[⟨255, 0, 0⟩, ⟨0, 255, 0⟩], [⟨0, 0, 255⟩, ⟨255, 255, 0⟩]], 2, 2, bytesOf "P6", 255⟩
    4 4).2.2.2.2.2.1 1 1 (by decide) (by decide)

/-! ### Line-oriented readers and mutating operations (claim C9) -/

/-- Go `bufio.Scanner` with the default line split: the stream cut at
newlines, without the newline bytes; a trailing newline produces no extra
empty line, but interior empty lines are kept. -/
def splitLinesAux : List Nat → List Nat → List (List Nat)
  | [], acc => if acc.isEmpty then [] else [acc.reverse]
  | 10 :: rest, acc => acc.reverse :: splitLinesAux rest []
  | b :: rest, acc => splitLinesAux rest (b :: acc)

/-- Lines of a byte stream as the default `bufio.Scanner` yields them. -/
def splitLines (s : List Nat) : List (List Nat) := splitLinesAux s []

/-- Go `fmt.Sscanf(s, "%d", &v)` with the error ignored: the variable keeps
its zero value when nothing parses. -/
def sscanf1D (s : List Nat) : Int :=
  match scanInt s with
  | none => 0
  | some (a, _) => a

/-- Go `fmt.Sscanf(s, "%d %d", &a, &b)` with the error ignored: a partial
parse leaves the unparsed variable at its zero value. -/
def sscanf2D (s : List Nat) : Int × Int :=
  match scanInt s with
  | none => (0, 0)
  | some (a, r) =>
    match scanInt r with
    | none => (a, 0)
    | some (b, _) => (a, b)

/-- Go `fmt.Sscanf(line, "%d %d %d", &r, &g, &b)` into `uint8` variables with
the error ignored: `Sscanf` stops at the first failing verb (including a
value outside `uint8` range), leaving the remaining variables at zero. -/
def sscanfPixel (s : List Nat) : Pixel :=
  match scanInt s with
  | none => ⟨0, 0, 0⟩
  | some (r, s1) =>
    if r < 0 ∨ 255 < r then ⟨0, 0, 0⟩
    else
      match scanInt s1 with
      | none => ⟨r.toNat, 0, 0⟩
      | some (gv, s2) =>
        if gv < 0 ∨ 255 < gv then ⟨r.toNat, 0, 0⟩
        else
          match scanInt s2 with
          | none => ⟨r.toNat, gv.toNat, 0⟩
          | some (b, _) =>
            if b < 0 ∨ 255 < b then ⟨r.toNat, gv.toNat, 0⟩
            else ⟨r.toNat, gv.toNat, b.toNat⟩

/-- Embedded `ReadPPM` from src/3-PPM/ppm.go (lines 26-79): a line scanner
reads the magic number, one dimension line and one max-value line (`Sscanf`
errors ignored), then one line per pixel, row-major; running out of lines is
an error, and `make` with a negative dimension panics.  The allocation
pattern guarantees `height` rows of exactly `width` pixels each. -/
def decodePPM3 (s : List Nat) : GoRes PPM :=
  let ls := splitLines s
  if ls.length < 1 then GoRes.err "failed to read magic number"
  else if ls.length < 2 then GoRes.err "failed to read width and height"
  else if ls.length < 3 then GoRes.err "failed to read max value"
  else
    let magic := ls.getD 0 []
    let wh := sscanf2D (ls.getD 1 [])
    let mx := sscanf1D (ls.getD 2 [])
    if wh.2 < 0 then GoRes.panicked
    else if 0 < wh.2 ∧ wh.1 < 0 then GoRes.panicked
    else if ls.length < 3 + wh.2.toNat * wh.1.toNat then GoRes.err "failed to read pixel data"
    else
      GoRes.ok ⟨(List.range wh.2.toNat).map (fun y =>
          (List.range wh.1.toNat).map (fun x =>
            sscanfPixel (ls.getD (3 + y * wh.1.toNat + x) []))),
        wh.1, wh.2, magic, mx⟩

/-- Embedded first `ReadPBM` from src/pbm.go (lines 17-58, package main):
after the magic line and the dimension line (`dimensions[0]`/`dimensions[1]`
panic when the line has fewer than two fields), the reader appends ONE row
per remaining input line, so the number of rows is the number of remaining
lines, not the declared height; a `1` character at a column index at or past
`width` is an out-of-range write and panics. -/
def decodePBMMain (s : List Nat) : GoRes PBM :=
  let ls := splitLines s
  let magic := ls.getD 0 []
  let dims := fields (ls.getD 1 [])
  if dims.length < 2 then GoRes.panicked
  else
    let w := sscanf1D (dims.getD 0 [])
    let h := sscanf1D (dims.getD 1 [])
    let dataLines := ls.drop 2
    if dataLines.length ≠ 0 ∧ w < 0 then GoRes.panicked
    else if dataLines.any (fun line =>
        line.enum.any (fun p => p.2 == 49 && decide (w.toNat ≤ p.1))) then GoRes.panicked
    else
      GoRes.ok ⟨dataLines.map (fun line =>
          (List.range w.toNat).map (fun i => line.getD i 0 == 49)),
        w, h, magic⟩

/-- Go `uint8` subtraction `a - b` (wraparound modulo 256) for `a` already
reduced modulo 256. -/
def sub8 (a b : Nat) : Nat := (a + 256 - b % 256) % 256

/-- Embedded `Invert` from src/ppm.go (lines 826-834): each channel becomes
`uint8(max) - channel` in wrapping `uint8` arithmetic. -/
def invert (g : PPM) : PPM :=
  { g with data := g.data.map (fun row => row.map (fun px =>
      ⟨sub8 (u8 g.max) px.R, sub8 (u8 g.max) px.G, sub8 (u8 g.max) px.B⟩)) }

/-- Embedded `Flip` from src/ppm.go (lines 837-843): the in-place swap of
positions `x` and `width-1-x` for `x < width/2`; on a row of length `width`
(the invariant hypothesized by every theorem below) its net effect is to
reverse the row. -/
def flip (g : PPM) : PPM :=
  { g with data := g.data.map List.reverse }

/-- Embedded `Flop` from src/ppm.go (lines 846-852): the in-place swap of
rows `y` and `height-1-y` for `y < height/2`; on a grid of `height` rows its
net effect is to reverse the row order. -/
def flop (g : PPM) : PPM :=
  { g with data := g.data.reverse }

/-- Embedded `SetMaxValue` from src/ppm.go (lines 860-872): each channel is
rescaled by `uint8(float64(v) * float64(newMax) / float64(max))`; for `uint8`
channels and max values the float64 products and the correctly rounded
division truncate exactly like natural division, which this embedding uses;
the stored max is then replaced. -/
def setMaxValuePPM (g : PPM) (maxValue : Nat) : PPM :=
  { g with
    data := g.data.map (fun row => row.map (fun px =>
      ⟨px.R * maxValue / g.max.toNat, px.G * maxValue / g.max.toNat,
        px.B * maxValue / g.max.toNat⟩)),
    max := (maxValue : Int) }

/-- Claim C9 counterexample: the first `ReadPBM` in src/pbm.go successfully
decodes a stream declaring dimensions 2 by 2 but containing a single data
line, returning a grid with one row while the stored height is 2: the
row-count invariant does not hold after this successful decode. -/
theorem claim_C9_counterexample :
    decodePBMMain (bytesOf "P1\n2 2\n10\n") =
      GoRes.ok ⟨[[true, false]], 2, 2, bytesOf "P1"⟩ ∧
    ([[true, false]] : List (List Bool)).length ≠ (2 : Int).toNat :=
  ⟨by decide, by decide⟩

theorem valid_with_mapped_rows (g : PPM) (f : Pixel → Pixel) (hg : g.valid) :
    PPM.valid { g with data := g.data.map (fun row => row.map f) } := by
  obtain ⟨hw, hh, hlen, hrows⟩ := hg
  refine ⟨hw, hh, by simpa using hlen, ?_⟩
  intro row hrow
  simp only [List.mem_map] at hrow
  obtain ⟨r, hr, rfl⟩ := hrow
  simpa using hrows r hr

theorem rotate90CW_valid (g : PPM) (hg : g.valid) : (rotate90CW g).valid := by
  obtain ⟨hw, hh, hlen, hrows⟩ := hg
  refine ⟨hh, hw, ?_, ?_⟩
  · rw [rotate90CW_data_length]
    rfl
  · intro row hrow
    simp only [rotate90CW, List.mem_map] at hrow
    obtain ⟨i, _, hrow⟩ := hrow
    rw [← hrow]
    simp only [List.length_map, List.length_range]
    rfl

theorem setPixel_width (g : PPM) (p : Point) (c : Pixel) :
    (setPixel g p c).width = g.width := by
  unfold setPixel
  split <;> rfl

theorem setPixel_height (g : PPM) (p : Point) (c : Pixel) :
    (setPixel g p c).height = g.height := by
  unfold setPixel
  split <;> rfl

theorem setPixel_valid (g : PPM) (p : Point) (c : Pixel) (hg : g.valid) :
    (setPixel g p c).valid := by
  obtain ⟨hw, hh, hlen, hrows⟩ := hg
  unfold setPixel
  split
  · rename_i hin
    refine ⟨hw, hh, by simpa using hlen, ?_⟩
    intro row hrow
    simp only at hrow
    rcases List.mem_or_eq_of_mem_set hrow with hmem | hset
    · exact hrows row hmem
    · have hylt : p.Y.toNat < g.data.length := by omega
      rw [hset, List.length_set, getD_of_lt _ _ _ hylt]
      exact hrows g.data[p.Y.toNat] (List.getElem_mem hylt)
  · exact ⟨hw, hh, hlen, hrows⟩

/-- Claim C9 (corrected): after every successful decode by `ReadPPM`
(src/3-PPM/ppm.go) the grid holds exactly `height` rows of exactly `width`
pixels each, and the mutating operations Invert, Flip, Flop, Rotate90CW,
SetMaxValue and SetPixel preserve the invariant (Rotate90CW with the
dimensions swapped); the first `ReadPBM` in src/pbm.go, however, appends one
row per remaining input line and breaks the invariant (see the
counterexample). -/
theorem claim_C9_shape_invariant (s : List Nat) (g g2 : PPM) (p : Point) (c : Pixel) (m : Nat)
    (hdec : decodePPM3 s = GoRes.ok g) (hg2 : g2.valid) :
    (g.data.length = g.height.toNat ∧ ∀ row ∈ g.data, row.length = g.width.toNat) ∧
    ((invert g2).valid ∧ (invert g2).width = g2.width ∧ (invert g2).height = g2.height) ∧
    ((flip g2).valid ∧ (flip g2).width = g2.width ∧ (flip g2).height = g2.height) ∧
    ((flop g2).valid ∧ (flop g2).width = g2.width ∧ (flop g2).height = g2.height) ∧
    ((rotate90CW g2).valid ∧ (rotate90CW g2).width = g2.height ∧
      (rotate90CW g2).height = g2.width) ∧
    ((setMaxValuePPM g2 m).valid ∧ (setMaxValuePPM g2 m).width = g2.width ∧
      (setMaxValuePPM g2 m).height = g2.height) ∧
    ((setPixel g2 p c).valid ∧ (setPixel g2 p c).width = g2.width ∧
      (setPixel g2 p c).height = g2.height) := by
  obtain ⟨hw2, hh2, hlen2, hrows2⟩ := hg2
  refine ⟨?_, ⟨valid_with_mapped_rows g2 _ ⟨hw2, hh2, hlen2, hrows2⟩, rfl, rfl⟩,
    ?_, ?_, ⟨rotate90CW_valid g2 ⟨hw2, hh2, hlen2, hrows2⟩, rfl, rfl⟩,
    ⟨valid_with_mapped_rows g2 _ ⟨hw2, hh2, hlen2, hrows2⟩, rfl, rfl⟩,
    ⟨setPixel_valid g2 p c ⟨hw2, hh2, hlen2, hrows2⟩, setPixel_width g2 p c,
      setPixel_height g2 p c⟩⟩
  · simp only [decodePPM3] at hdec
    split_ifs at hdec <;> try exact GoRes.noConfusion hdec
    cases hdec
    constructor
    · simp
    · intro row hrow
      simp only [List.mem_map] at hrow
      obtain ⟨y, _, hrow⟩ := hrow
      rw [← hrow]
      simp
  · refine ⟨⟨hw2, hh2, ?_, ?_⟩, rfl, rfl⟩
    · simp only [flip, List.length_map]
      exact hlen2
    · intro row hrow
      simp only [flip, List.mem_map] at hrow
      obtain ⟨r, hr, rfl⟩ := hrow
      rw [List.length_reverse]
      exact hrows2 r hr
  · refine ⟨⟨hw2, hh2, ?_, ?_⟩, rfl, rfl⟩
    · simp only [flop, List.length_reverse]
      exact hlen2
    · intro row hrow
      simp only [flop, List.mem_reverse] at hrow
      exact hrows2 row hrow

theorem claim_C9_shape_invariant_witness :
    decodePPM3 (bytesOf "P3\n1 1\n255\n1 2 3\n") =
      GoRes.ok ⟨[[⟨1, 2, 3⟩]], 1, 1, bytesOf "P3", 255⟩ ∧
    (⟨[[⟨1, 2, 3⟩]], 1, 1, bytesOf "P3", 255⟩ : PPM).data.length =
      ((⟨[[⟨1, 2, 3⟩]], 1, 1, bytesOf "P3", 255⟩ : PPM).height).toNat ∧
    (invert ⟨[[⟨9, 9, 9⟩]], 1, 1, bytesOf "P6", 255⟩).valid :=
  ⟨by decide,
   (claim_C9_shape_invariant (bytesOf "P3\n1 1\n255\n1 2 3\n")
     ⟨[[⟨1, 2, 3⟩]], 1, 1, bytesOf "P3", 255⟩ ⟨[[⟨9, 9, 9⟩]], 1, 1, bytesOf "P6", 255⟩
     ⟨0, 0⟩ ⟨0, 0, 0⟩ 100 (by decide) (by decide)).1.1,
   (claim_C9_shape_invariant (bytesOf "P3\n1 1\n255\n1 2 3\n")
     ⟨[[⟨1, 2, 3⟩]], 1, 1, bytesOf "P3", 255⟩ ⟨[[⟨9, 9, 9⟩]], 1, 1, bytesOf "P6", 255⟩
     ⟨0, 0⟩ ⟨0, 0, 0⟩ 100 (by decide) (by decide)).2.1.1⟩

/-! ### Bounds-guarded PBM accessors (src/2-PGM/pgm.go lines 310-324;
claim C10) -/

/-- Well-formed PBM grid: non-negative stored dimensions describing the data
exactly. -/
def PBM.valid (g : PBM) : Prop :=
  0 ≤ g.width ∧ 0 ≤ g.height ∧ g.data.length = g.height.toNat ∧
    ∀ row ∈ g.data, row.length = g.width.toNat

instance (g : PBM) : Decidable g.valid := by
  unfold PBM.valid
  infer_instance

/-- Embedded guarded `At` from src/2-PGM/pgm.go (lines 311-316): coordinates
outside `[0,width) × [0,height)` return `false`; otherwise `data[y][x]` is
read, which panics only if the slices are shorter than the stored
dimensions. -/
def atPBMGuarded (g : PBM) (x y : Int) : GoRes Bool :=
  if x < 0 ∨ g.width ≤ x ∨ y < 0 ∨ g.height ≤ y then GoRes.ok false
  else if y.toNat < g.data.length ∧ x.toNat < (g.data.getD y.toNat []).length then
    GoRes.ok ((g.data.getD y.toNat []).getD x.toNat false)
  else GoRes.panicked

/-- Embedded guarded `Set` from src/2-PGM/pgm.go (lines 319-324): coordinates
outside `[0,width) × [0,height)` return without touching the grid; otherwise
`data[y][x]` is written. -/
def setPBMGuarded (g : PBM) (x y : Int) (v : Bool) : GoRes PBM :=
  if x < 0 ∨ g.width ≤ x ∨ y < 0 ∨ g.height ≤ y then GoRes.ok g
  else if y.toNat < g.data.length ∧ x.toNat < (g.data.getD y.toNat []).length then
    GoRes.ok { g with data := g.data.set y.toNat ((g.data.getD y.toNat []).set x.toNat v) }
  else GoRes.panicked

/-- Claim C10: for the bounds-guarded PBM variant, `At` returns `false` for
any out-of-range coordinates, `Set` leaves the grid completely unchanged for
out-of-range coordinates, `At(x, y)` after `Set(x, y, v)` returns `v` for
in-range coordinates, and on a well-formed grid neither operation panics for
any integer coordinates. -/
theorem claim_C10_guarded_accessors (g : PBM) (x y : Int) (v : Bool) (hg : g.valid) :
    ((x < 0 ∨ g.width ≤ x ∨ y < 0 ∨ g.height ≤ y) →
      atPBMGuarded g x y = GoRes.ok false ∧ setPBMGuarded g x y v = GoRes.ok g) ∧
    (¬(x < 0 ∨ g.width ≤ x ∨ y < 0 ∨ g.height ≤ y) →
      ∃ g2 : PBM, setPBMGuarded g x y v = GoRes.ok g2 ∧
        atPBMGuarded g2 x y = GoRes.ok v) ∧
    (∃ r : Bool, atPBMGuarded g x y = GoRes.ok r) ∧
    (∃ g3 : PBM, setPBMGuarded g x y v = GoRes.ok g3) := by
  obtain ⟨hw, hh, hlen, hrows⟩ := hg
  by_cases hout : x < 0 ∨ g.width ≤ x ∨ y < 0 ∨ g.height ≤ y
  · refine ⟨fun _ => ?_, fun hin => absurd hout hin, ?_, ?_⟩
    · unfold atPBMGuarded setPBMGuarded
      rw [if_pos hout, if_pos hout]
      exact ⟨rfl, rfl⟩
    · exact ⟨false, by unfold atPBMGuarded; rw [if_pos hout]⟩
    · exact ⟨g, by unfold setPBMGuarded; rw [if_pos hout]⟩
  · have hb : y.toNat < g.data.length ∧ x.toNat < (g.data.getD y.toNat []).length := by
      push_neg at hout
      constructor
      · omega
      · rw [getD_of_lt _ _ _ (by omega)]
        rw [hrows g.data[y.toNat] (List.getElem_mem (by omega))]
        omega
    have hset : setPBMGuarded g x y v =
        GoRes.ok { g with data := g.data.set y.toNat ((g.data.getD y.toNat []).set x.toNat v) } := by
      unfold setPBMGuarded
      rw [if_neg hout, if_pos hb]
    refine ⟨fun hcontra => absurd hcontra hout, fun _ => ?_, ?_, ?_⟩
    · refine ⟨_, hset, ?_⟩
      unfold atPBMGuarded
      rw [if_neg hout]
      have hb2 : y.toNat < (g.data.set y.toNat ((g.data.getD y.toNat []).set x.toNat v)).length ∧
          x.toNat < ((g.data.set y.toNat
            ((g.data.getD y.toNat []).set x.toNat v)).getD y.toNat []).length := by
        constructor
        · rw [List.length_set]
          exact hb.1
        · rw [getD_set, if_pos ⟨rfl, hb.1⟩, List.length_set]
          exact hb.2
      rw [if_pos hb2]
      rw [getD_set, if_pos ⟨rfl, hb.1⟩, getD_set, if_pos ⟨rfl, hb.2⟩]
    · refine ⟨(g.data.getD y.toNat []).getD x.toNat false, ?_⟩
      unfold atPBMGuarded
      rw [if_neg hout, if_pos hb]
    · exact ⟨_, hset⟩

theorem claim_C10_guarded_accessors_witness :
    PBM.valid ⟨[[false]], 1, 1, bytesOf "P1"⟩ ∧
    atPBMGuarded ⟨[[false]], 1, 1, bytesOf "P1"⟩ 5 (-3) = GoRes.ok false ∧
    setPBMGuarded ⟨[[false]], 1, 1, bytesOf "P1"⟩ 5 (-3) true =
      GoRes.ok ⟨[[false]], 1, 1, bytesOf "P1"⟩ :=
  ⟨by decide,
   ((claim_C10_guarded_accessors ⟨[[false]], 1, 1, bytesOf "P1"⟩ 5 (-3) true (by decide)).1
     (by decide)).1,
   ((claim_C10_guarded_accessors ⟨[[false]], 1, 1, bytesOf "P1"⟩ 5 (-3) true (by decide)).1
     (by decide)).2⟩

end Netpbm
